import Mathlib

/-!
# Verification of the `SequentialStudy` controller
(`src/pages/dashboard/sequential-study.js`)

Shallow embedding of the logical core of the `SequentialStudy` class: the
section list built at construction, the navigation state machine
(`nextSection` / `prevSection`), the quiz sub-state (`submitQuizAnswer`,
the next-question handler together with `showQuizResults`), and the
completion callback.

Modelling conventions:
* JS strings are Lean `String`s; `toLowerCase`, `trim` and `includes` are
  re-implemented below (`jsToLower`, `jsTrim`, `jsIncludes`).
* The rendering layer (`render*` methods, DOM access, fade transitions) only
  manipulates the container element and never the logical state, so it is
  not embedded; `fadeOut`/`fadeIn` are identities on controller state.
* The completion callback is observed by a counter `completions`
  (incremented exactly when the JS code would invoke `this.onComplete()`),
  plus a flag `onComplete` recording whether a callback has been registered.
* JS methods that would throw on a state the UI cannot produce (e.g.
  `submitQuizAnswer` while the current section is not a quiz) return
  `Option`, with `none` for the throwing paths; a throw happens before any
  mutation, so the state is unchanged there.
* Where the spec describes a returned `Signal`, the JS method's control-flow
  branch determines the signal; the embedded operation returns the branch
  taken as a signal value alongside the new state.
-/

/-- JS `String.prototype.toLowerCase` (over the code points of the string). -/
def jsToLower (s : String) : String :=
  ⟨s.data.map Char.toLower⟩

/-- Whitespace as removed by JS `String.prototype.trim` (ASCII part plus
no-break space; the inputs in this repository only use the ASCII part). -/
def jsIsWhitespace (c : Char) : Bool :=
  c = ' ' || c = '\t' || c = '\n' || c = '\r' ||
  c = (Char.ofNat 11) || c = (Char.ofNat 12) || c = (Char.ofNat 160)

/-- JS `String.prototype.trim`: drop whitespace from both ends. -/
def jsTrim (s : String) : String :=
  ⟨((s.data.dropWhile jsIsWhitespace).reverse.dropWhile jsIsWhitespace).reverse⟩

/-- `needle` occurs contiguously at the start of `hay`. -/
def charsStartsWith : List Char → List Char → Bool
  | [], _ => true
  | _ :: _, [] => false
  | a :: as, b :: bs => a = b && charsStartsWith as bs

/-- `needle` occurs contiguously somewhere in `hay`. -/
def charsOccursIn (needle hay : List Char) : Bool :=
  match hay with
  | [] => needle.isEmpty
  | _ :: t => charsStartsWith needle hay || charsOccursIn needle t

/-- JS `s.includes(sub)`. -/
def jsIncludes (s sub : String) : Bool :=
  charsOccursIn sub.data s.data

/-- One quiz question of the study-plan document (an element of
`data.active_recall`); the JS objects carry `question`, `type`, `options`
and `answer` fields. -/
structure Question where
  question : String
  type : String
  options : Option (List String)
  answer : String
deriving DecidableEq, Repr

/-- Input study-plan document (`studyPlanData`).  Fields the controller
merely forwards to the renderer (`concept_map`, worked-example payloads) are
carried opaquely as strings; `Option` distinguishes absent (`undefined`/
`null`, falsy in the JS guards) from present. -/
structure StudyPlanData where
  summary : Option String
  concept_map : Option String
  learning_objectives : Option (List String)
  worked_examples : Option (List String)
  active_recall : Option (List Question)
deriving DecidableEq, Repr

/-- Mutable quiz sub-state embedded in the quiz section's `content`. -/
structure QuizContent where
  questions : List Question
  currentQuestion : Nat
  score : Nat
deriving DecidableEq, Repr

/-- A section's `next_button` object. -/
structure NextButton where
  text : String
  enabled : Bool
deriving DecidableEq, Repr

/-- Variant part of a section: explanation, example, or quiz content. -/
inductive SectionContent where
  | explanation (summary : String) (conceptMap : Option String)
      (objectives : List String)
  | example (examples : List String)
  | quiz (content : QuizContent)
deriving DecidableEq, Repr

/-- One element of `this.sections`. -/
structure StudySection where
  title : String
  content : SectionContent
  next_button : NextButton
deriving DecidableEq, Repr

/-- Kind tag of a section (what the JS stores in the `type` field). -/
inductive SectionKind where
  | explanation
  | example
  | quiz
deriving DecidableEq, Repr

/-- Kind of a section, read off its content variant. -/
def StudySection.kind (sec : StudySection) : SectionKind :=
  match sec.content with
  | .explanation _ _ _ => .explanation
  | .example _ => .example
  | .quiz _ => .quiz

/-- `SequentialStudy.buildSections`, translated clause by clause. -/
def buildSections (data : StudyPlanData) : List StudySection :=
  let explanationSec : StudySection :=
    { title := "Understanding the Concept"
      content := .explanation (data.summary.getD "") data.concept_map
        (data.learning_objectives.getD [])
      next_button := { text := "Continue to Examples", enabled := true } }
  let exampleSecs : List StudySection :=
    match data.worked_examples with
    | some ex =>
      if ex.length > 0 then
        [{ title := "See It in Action"
           content := .example ex
           next_button := { text := "Continue to Quiz", enabled := true } }]
      else []
    | none => []
  let quizSecs : List StudySection :=
    match data.active_recall with
    | some qs =>
      if qs.length > 0 then
        [{ title := "Test Your Understanding"
           content := .quiz ({ questions := qs.take 3
                               currentQuestion := 0
                               score := 0 })
           next_button := { text := "Finish Section", enabled := false } }]
      else []
    | none => []
  explanationSec :: (exampleSecs ++ quizSecs)

/-- Controller state (`this` of a `SequentialStudy` instance, minus the
rendering container).  `onComplete` records whether `setOnComplete` has
registered a callback, and `completions` counts its invocations. -/
structure SequentialStudy where
  data : StudyPlanData
  currentSectionIndex : Nat
  sections : List StudySection
  onComplete : Bool
  completions : Nat
deriving DecidableEq, Repr

/-- The `SequentialStudy` constructor. -/
def SequentialStudy.mk' (data : StudyPlanData) : SequentialStudy :=
  { data := data
    currentSectionIndex := 0
    sections := buildSections data
    onComplete := false
    completions := 0 }

/-- `SequentialStudy.setOnComplete`. -/
def setOnComplete (s : SequentialStudy) : SequentialStudy :=
  { s with onComplete := true }

/-- `SequentialStudy.getCurrentSection`: `this.sections[idx] || null`. -/
def getCurrentSection (s : SequentialStudy) : Option StudySection :=
  s.sections[s.currentSectionIndex]?

/-- Navigation signal: which branch `nextSection` / `prevSection` took
(the spec's `Advanced | Completed | Retreated | NoOp`). -/
inductive NavSignal where
  | Advanced
  | Completed
  | Retreated
  | NoOp
deriving DecidableEq, Repr

/-- `SequentialStudy.nextSection`.  On the last section (guard
`currentSectionIndex >= sections.length - 1`) it invokes the completion
callback when one is registered and returns without touching the state;
otherwise it increments the index (the fades only animate the container). -/
def nextSection (s : SequentialStudy) : SequentialStudy × NavSignal :=
  if s.currentSectionIndex ≥ s.sections.length - 1 then
    ({ s with
        completions := if s.onComplete then s.completions + 1 else s.completions },
     .Completed)
  else
    ({ s with currentSectionIndex := s.currentSectionIndex + 1 }, .Advanced)

/-- `SequentialStudy.prevSection`: no-op at index 0, else decrement. -/
def prevSection (s : SequentialStudy) : SequentialStudy × NavSignal :=
  if s.currentSectionIndex ≤ 0 then (s, .NoOp)
  else ({ s with currentSectionIndex := s.currentSectionIndex - 1 },
        .Retreated)

/-- The grading expression of `SequentialStudy.submitQuizAnswer`:
`multiple_choice` compares `toLowerCase().trim()` of both sides for
equality; every other question type uses the symmetric `includes` check on
the lowercased (NOT trimmed) strings. -/
def gradeAnswer (question : Question) (userAnswer : String) : Bool :=
  if question.type = "multiple_choice" then
    jsTrim (jsToLower userAnswer) = jsTrim (jsToLower question.answer)
  else
    jsIncludes (jsToLower userAnswer) (jsToLower question.answer) ||
    jsIncludes (jsToLower question.answer) (jsToLower userAnswer)

/-- `SequentialStudy.submitQuizAnswer`: grades the current question of the
current (quiz) section and increments the section's `score` on a correct
answer.  `none` models the JS `TypeError` paths (current section missing or
not a quiz, or `currentQuestion` out of bounds), all of which throw before
any mutation. -/
def submitQuizAnswer (s : SequentialStudy) (userAnswer : String) :
    Option (SequentialStudy × Bool) :=
  match getCurrentSection s with
  | none => none
  | some sec =>
    match sec.content with
    | .quiz qc =>
      match qc.questions[qc.currentQuestion]? with
      | none => none
      | some question =>
        let isCorrect := gradeAnswer question userAnswer
        let qc' := if isCorrect then { qc with score := qc.score + 1 } else qc
        let sec' := { sec with content := .quiz qc' }
        some ({ s with sections := s.sections.set s.currentSectionIndex sec' },
              isCorrect)
    | _ => none

/-- `Math.round((score / total) * 100)` over exact (rational) arithmetic:
round-half-up of `100 * score / total`.  For the reachable quiz sizes
(`total ≤ 3`, `score ≤ total`) the IEEE-double computation in the JS agrees
with the exact value. -/
def roundPercentage (score total : Nat) : Nat :=
  (200 * score + total) / (2 * total)

/-- Signal of the next-question action (the spec's
`NextQuestion | QuizFinished {score, total, percentage}`). -/
inductive QuizSignal where
  | NextQuestion
  | QuizFinished (score total percentage : Nat)
deriving DecidableEq, Repr

/-- The next-question action: the `#next-quiz-question` click handler
installed by `submitQuizAnswer`, together with `showQuizResults`.  If more
questions remain it increments `currentQuestion`; otherwise it finalizes:
computes the percentage and sets the quiz section's `next_button.enabled`
to `true`.  `none` models the throwing paths (no current section / current
section not a quiz). -/
def advanceQuizQuestion (s : SequentialStudy) :
    Option (SequentialStudy × QuizSignal) :=
  match getCurrentSection s with
  | none => none
  | some sec =>
    match sec.content with
    | .quiz qc =>
      if qc.currentQuestion < qc.questions.length - 1 then
        let sec' := { sec with
          content := .quiz { qc with currentQuestion := qc.currentQuestion + 1 } }
        some ({ s with sections := s.sections.set s.currentSectionIndex sec' },
              .NextQuestion)
      else
        let score := qc.score
        let total := qc.questions.length
        let percentage := roundPercentage score total
        let sec' := { sec with
          next_button := { sec.next_button with enabled := true } }
        some ({ s with sections := s.sections.set s.currentSectionIndex sec' },
              .QuizFinished score total percentage)
    | _ => none

/-- One externally triggerable operation on a controller. -/
inductive Op where
  | next
  | prev
  | submit (answer : String)
  | advanceQuiz
deriving DecidableEq, Repr

/-- Apply one operation to the state (a throwing call leaves the state
unchanged, since the JS throws before mutating). -/
def runOp (s : SequentialStudy) (op : Op) : SequentialStudy :=
  match op with
  | .next => (nextSection s).1
  | .prev => (prevSection s).1
  | .submit a =>
    match submitQuizAnswer s a with
    | some (s', _) => s'
    | none => s
  | .advanceQuiz =>
    match advanceQuizQuestion s with
    | some (s', _) => s'
    | none => s

/-- Apply a sequence of operations in order. -/
def run (s : SequentialStudy) (ops : List Op) : SequentialStudy :=
  ops.foldl runOp s

example : jsTrim (jsToLower "  PaRis ") = "paris" := by decide
example : jsIncludes "the mitochondria is" "mitochondria" = true := by decide
example : roundPercentage 2 3 = 67 := by decide

/-! ## Spec-side reference definitions

These follow the wording of the specification (not the source) and are used
to compare the built artefacts against the spec's reference description. -/

/-- The spec's `workedExamples` sequence of the document (the spec's data
model has a plain sequence; an absent JS field reads as the empty one). -/
def specWorkedExamples (d : StudyPlanData) : List String :=
  d.worked_examples.getD []

/-- The spec's `quizQuestions` sequence of the document. -/
def specQuizQuestions (d : StudyPlanData) : List Question :=
  d.active_recall.getD []

/-- Spec wording for MultipleChoice grading: the candidate "equals
`correctAnswer`, case-insensitive, surrounding whitespace trimmed". -/
def specMCCorrect (candidate correctAnswer : String) : Bool :=
  jsTrim (jsToLower candidate) = jsTrim (jsToLower correctAnswer)

/-- Spec wording for ShortAnswer grading: "after case-insensitive trimming,
`candidate` is a substring of `correctAnswer` OR `correctAnswer` is a
substring of `candidate`". -/
def specShortAnswerCorrect (candidate correctAnswer : String) : Bool :=
  jsIncludes (jsTrim (jsToLower correctAnswer)) (jsTrim (jsToLower candidate)) ||
  jsIncludes (jsTrim (jsToLower candidate)) (jsTrim (jsToLower correctAnswer))

/-- ShortAnswer grading as the code actually performs it: symmetric
containment on the lowercased strings, with no trimming of either side. -/
def codeShortAnswerCorrect (candidate correctAnswer : String) : Bool :=
  jsIncludes (jsToLower correctAnswer) (jsToLower candidate) ||
  jsIncludes (jsToLower candidate) (jsToLower correctAnswer)

/-! ## Observation helpers -/

/-- The question list of a section, when it is a quiz section. -/
def sectionQuizQuestions (sec : StudySection) : Option (List Question) :=
  match sec.content with
  | .quiz qc => some qc.questions
  | _ => none

/-- The `next_button.enabled` flag of the section at index `i`. -/
def navEnabledAt (s : SequentialStudy) (i : Nat) : Option Bool :=
  (s.sections[i]?).map (fun sec => sec.next_button.enabled)

/-- The quiz score stored at index `i` (0 when the index does not hold a
quiz section). -/
def scoreAt (s : SequentialStudy) (i : Nat) : Nat :=
  match s.sections[i]? with
  | some sec =>
    match sec.content with
    | .quiz qc => qc.score
    | _ => 0
  | none => 0

/-- Whether a next-question action from `s` would finalize the quiz
(current section is a quiz on its last question). -/
def finalizing (s : SequentialStudy) : Bool :=
  match getCurrentSection s with
  | some sec =>
    match sec.content with
    | .quiz qc => !(qc.currentQuestion < qc.questions.length - 1)
    | _ => false
  | none => false

/-- `k` successive `nextSection` calls. -/
def iterateNext (s : SequentialStudy) : Nat → SequentialStudy
  | 0 => s
  | k + 1 => (nextSection (iterateNext s k)).1

/-- Whether an operation is an answer submission. -/
def Op.isSubmit : Op → Bool
  | .submit _ => true
  | _ => false

/-! ## C1 -/

/-- C1: the section sequence built at construction matches the reference
definition: the kind sequence is Explanation, then Example iff
`workedExamples` is non-empty, then Quiz iff `quizQuestions` is non-empty
(so Explanation is always present and first, and the order is fixed); the
quiz section, when present, holds exactly `quizQuestions.take 3`, which has
length `min 3 len` and is a prefix of the input list (truncation in
original order, never a sampling). -/
theorem buildSections_matches_reference (d : StudyPlanData) :
    (buildSections d).map StudySection.kind
      = SectionKind.explanation ::
        ((if (specWorkedExamples d).isEmpty then [] else [SectionKind.example]) ++
         (if (specQuizQuestions d).isEmpty then [] else [SectionKind.quiz]))
    ∧ (buildSections d).filterMap sectionQuizQuestions
      = (if (specQuizQuestions d).isEmpty then []
         else [(specQuizQuestions d).take 3])
    ∧ ((specQuizQuestions d).take 3).length = min 3 (specQuizQuestions d).length
    ∧ (specQuizQuestions d).take 3 <+: specQuizQuestions d := by
  obtain ⟨su, cm, lo, we, ar⟩ := d
  refine ⟨?_, ?_, by simp, ⟨(specQuizQuestions _).drop 3, List.take_append_drop 3 _⟩⟩
  · cases we with
    | none =>
      cases ar with
      | none => simp [buildSections, specWorkedExamples, specQuizQuestions,
          StudySection.kind]
      | some qs => cases qs <;>
          simp [buildSections, specWorkedExamples, specQuizQuestions,
            StudySection.kind]
    | some ex =>
      cases ex <;> cases ar with
      | none => simp [buildSections, specWorkedExamples, specQuizQuestions,
          StudySection.kind]
      | some qs => cases qs <;>
          simp [buildSections, specWorkedExamples, specQuizQuestions,
            StudySection.kind]
  · cases we with
    | none =>
      cases ar with
      | none => simp [buildSections, specQuizQuestions, sectionQuizQuestions]
      | some qs => cases qs <;>
          simp [buildSections, specQuizQuestions, sectionQuizQuestions]
    | some ex =>
      cases ex <;> cases ar with
      | none => simp [buildSections, specQuizQuestions, sectionQuizQuestions]
      | some qs => cases qs <;>
          simp [buildSections, specQuizQuestions, sectionQuizQuestions]

/-! ## Concrete documents and controllers used as witnesses -/

/-- A multiple-choice question whose stored answer is lowercase. -/
def qParis : Question :=
  { question := "Capital of France?"
    type := "multiple_choice"
    options := some ["Paris", "London"]
    answer := "paris" }

/-- A short-answer question. -/
def qMito : Question :=
  { question := "What is the powerhouse of the cell?"
    type := "short_answer"
    options := none
    answer := "mitochondria" }

/-- A short-answer question whose stored answer carries trailing
whitespace. -/
def qHello : Question :=
  { question := "Say hello"
    type := "short_answer"
    options := none
    answer := "hello " }

/-- Document with one multiple-choice quiz question and no examples. -/
def docMC : StudyPlanData :=
  { summary := some "Geography"
    concept_map := none
    learning_objectives := none
    worked_examples := none
    active_recall := some [qParis] }

/-- Document with one short-answer quiz question. -/
def docSA : StudyPlanData :=
  { summary := some "Biology"
    concept_map := none
    learning_objectives := none
    worked_examples := none
    active_recall := some [qMito] }

/-- Document with one whitespace-sensitive short-answer quiz question. -/
def docHello : StudyPlanData :=
  { summary := some "Greetings"
    concept_map := none
    learning_objectives := none
    worked_examples := none
    active_recall := some [qHello] }

/-- A fresh controller with a completion callback registered. -/
def freshController (d : StudyPlanData) : SequentialStudy :=
  setOnComplete (SequentialStudy.mk' d)

/-- Controller on `docMC`, advanced onto its quiz section. -/
def ctrlMC : SequentialStudy :=
  (nextSection (SequentialStudy.mk' docMC)).1

/-- Controller on `docSA`, advanced onto its quiz section. -/
def ctrlSA : SequentialStudy :=
  (nextSection (SequentialStudy.mk' docSA)).1

/-- Controller on `docHello`, advanced onto its quiz section. -/
def ctrlHello : SequentialStudy :=
  (nextSection (SequentialStudy.mk' docHello)).1

/-! ## Navigation lemmas -/

/-- A non-terminal `nextSection` call advances the index by one. -/
theorem nextSection_of_lt (s : SequentialStudy)
    (h : s.currentSectionIndex + 1 < s.sections.length) :
    nextSection s
      = ({ s with currentSectionIndex := s.currentSectionIndex + 1 },
         NavSignal.Advanced) := by
  unfold nextSection
  rw [if_neg]
  omega

/-- A `nextSection` call on the last section only invokes the callback. -/
theorem nextSection_of_last (s : SequentialStudy)
    (h : s.sections.length ≤ s.currentSectionIndex + 1) :
    nextSection s
      = ({ s with completions :=
            if s.onComplete then s.completions + 1 else s.completions },
         NavSignal.Completed) := by
  unfold nextSection
  rw [if_pos]
  omega

/-- The built section list is never empty (Explanation is always there). -/
theorem buildSections_length_pos (d : StudyPlanData) :
    0 < (buildSections d).length := by
  unfold buildSections
  simp

/-- Splitting an iterated `nextSection`. -/
theorem iterateNext_add (s : SequentialStudy) (a b : Nat) :
    iterateNext s (a + b) = iterateNext (iterateNext s a) b := by
  induction b with
  | zero => rfl
  | succ b ih => simpa [iterateNext, Nat.add_succ] using congrArg (fun t => (nextSection t).1) ih

/-- While in range, `k` advances move the index forward by exactly `k`. -/
theorem iterateNext_in_range (s : SequentialStudy) (k : Nat)
    (h : s.currentSectionIndex + k < s.sections.length) :
    iterateNext s k = { s with currentSectionIndex := s.currentSectionIndex + k } := by
  induction k with
  | zero => rfl
  | succ k ih =>
    have hk : s.currentSectionIndex + k < s.sections.length := by omega
    have := ih hk
    simp only [iterateNext, this]
    rw [nextSection_of_lt]
    · rfl
    · simpa using h

/-- From the last section, each further advance bumps the callback count
(when a callback is registered) and moves nothing. -/
theorem iterateNext_from_last (s : SequentialStudy) (m : Nat)
    (h : s.currentSectionIndex + 1 = s.sections.length)
    (hc : s.onComplete = true) :
    iterateNext s m = { s with completions := s.completions + m } := by
  induction m with
  | zero => rfl
  | succ m ih =>
    simp only [iterateNext, ih]
    rw [nextSection_of_last]
    · simp [hc, Nat.add_assoc]
    · simpa using Nat.le_of_eq h.symm

/-! ## C2 -/

/-- C2: from a freshly constructed controller with a registered completion
callback, the `k`-th of the first `len(sections)` states has
`currentSectionIndex = k` with the callback never yet invoked (so the
sections are visited exactly once each, in increasing order, each
non-terminal call incrementing the index by exactly 1); and once the last
section is reached, every further `nextSection` call leaves the index at
the last section and invokes the callback exactly once per call (repeated
calls keep re-invoking it). -/
theorem advance_visits_each_section_then_completes (d : StudyPlanData) :
    (∀ k, k < (freshController d).sections.length →
       (iterateNext (freshController d) k).currentSectionIndex = k ∧
       (iterateNext (freshController d) k).completions = 0)
    ∧ (∀ m,
       (iterateNext (freshController d)
           ((freshController d).sections.length - 1 + m)).currentSectionIndex
         = (freshController d).sections.length - 1 ∧
       (iterateNext (freshController d)
           ((freshController d).sections.length - 1 + m)).completions = m) := by
  have hpos : 0 < (freshController d).sections.length := by
    simpa [freshController, setOnComplete, SequentialStudy.mk'] using
      buildSections_length_pos d
  have hidx : (freshController d).currentSectionIndex = 0 := rfl
  have hcomp : (freshController d).completions = 0 := rfl
  have hon : (freshController d).onComplete = true := rfl
  constructor
  · intro k hk
    rw [iterateNext_in_range (freshController d) k (by omega)]
    constructor <;> simp [hidx, hcomp]
  · intro m
    rw [iterateNext_add]
    rw [iterateNext_in_range (freshController d) ((freshController d).sections.length - 1)
      (by omega)]
    rw [iterateNext_from_last _ m (by simp [hidx]; omega) (by simp [hon])]
    constructor <;> simp [hidx, hcomp]

/-- Witness for C2 on `docMC` (two sections: Explanation, Quiz): one
advance lands on index 1 with no completion fired; advancing 3 times in
total (= 1 + 2) fires the callback twice. -/
theorem advance_visits_witness :
    (iterateNext (freshController docMC) 1).currentSectionIndex = 1
    ∧ (iterateNext (freshController docMC) 1).completions = 0
    ∧ (iterateNext (freshController docMC) 3).completions = 2 := by
  have h := advance_visits_each_section_then_completes docMC
  have hlen : (freshController docMC).sections.length = 2 := by decide
  refine ⟨(h.1 1 (by omega)).1, (h.1 1 (by omega)).2, ?_⟩
  have h2 := (h.2 2).2
  rwa [hlen] at h2

/-! ## C3 -/

/-- C3: `prevSection` at index 0 returns the state unchanged with `NoOp`;
at any positive index it signals `Retreated`, decrements the index by
exactly one (in particular it never wraps below 0), and leaves the
sections untouched. -/
theorem prevSection_noop_or_decrements (s : SequentialStudy) :
    (s.currentSectionIndex = 0 → prevSection s = (s, NavSignal.NoOp))
    ∧ (0 < s.currentSectionIndex →
        (prevSection s).2 = NavSignal.Retreated
        ∧ (prevSection s).1.currentSectionIndex + 1 = s.currentSectionIndex
        ∧ (prevSection s).1.sections = s.sections
        ∧ (prevSection s).1
            = { s with currentSectionIndex := s.currentSectionIndex - 1 }) := by
  constructor
  · intro h
    simp [prevSection, h]
  · intro h
    unfold prevSection
    rw [if_neg (by omega)]
    refine ⟨rfl, by simp; omega, rfl, rfl⟩

/-- Witness for C3: on `docMC`, retreating from index 0 is an identity
no-op, and retreating from the quiz (index 1) lands back on index 0. -/
theorem prevSection_witness :
    prevSection (SequentialStudy.mk' docMC) = (SequentialStudy.mk' docMC, NavSignal.NoOp)
    ∧ (prevSection ctrlMC).1.currentSectionIndex + 1 = ctrlMC.currentSectionIndex := by
  exact ⟨(prevSection_noop_or_decrements _).1 rfl,
    ((prevSection_noop_or_decrements ctrlMC).2 (by decide)).2.1⟩

/-! ## C4 -/

/-- The quiz section that `buildSections docMC` produces. -/
def secMC : StudySection :=
  { title := "Test Your Understanding"
    content := .quiz ({ questions := [qParis], currentQuestion := 0, score := 0 })
    next_button := { text := "Finish Section", enabled := false } }

/-- C4: on a multiple-choice question, `submitQuizAnswer` judges a
candidate correct exactly when it equals the stored answer after
lowercasing and trimming surrounding whitespace from both sides (the
spec-side predicate `specMCCorrect`) — an exact match, no partial
credit. -/
theorem submit_multipleChoice_grading (s : SequentialStudy)
    (sec : StudySection) (qc : QuizContent) (q : Question) (candidate : String)
    (hsec : getCurrentSection s = some sec)
    (hqc : sec.content = .quiz qc)
    (hq : qc.questions[qc.currentQuestion]? = some q)
    (hmc : q.type = "multiple_choice") :
    (submitQuizAnswer s candidate).map Prod.snd
      = some (specMCCorrect candidate q.answer) := by
  unfold submitQuizAnswer
  simp only [hsec, hqc, hq, gradeAnswer, hmc, if_pos, Option.map_some]
  rfl

/-- Witness for C4: submitting "Paris" on the quiz of `docMC` (stored
answer "paris") is judged correct. -/
theorem submit_multipleChoice_witness :
    (submitQuizAnswer ctrlMC "Paris").map Prod.snd = some true := by
  have h := submit_multipleChoice_grading ctrlMC secMC
    ({ questions := [qParis], currentQuestion := 0, score := 0 }) qParis "Paris"
    (by decide) rfl rfl rfl
  rw [h]
  decide

/-! ## C5 -/

/-- Counterexample to C5 as stated: with stored answer `"hello "` and
candidate `" hello"`, the spec-side predicate (trim both, then symmetric
containment) says correct, but the code — which never trims in the
short-answer branch — judges the submission incorrect. -/
theorem submit_shortAnswer_trim_counterexample :
    specShortAnswerCorrect " hello" "hello " = true
    ∧ (submitQuizAnswer ctrlHello " hello").map Prod.snd = some false := by
  constructor <;> decide

/-- C5 (amended): on a short-answer question, `submitQuizAnswer` judges a
candidate correct exactly when, after lowercasing both strings (with no
trimming of either side), the candidate is a substring of the stored
answer or the stored answer is a substring of the candidate. -/
theorem submit_shortAnswer_grading (s : SequentialStudy)
    (sec : StudySection) (qc : QuizContent) (q : Question) (candidate : String)
    (hsec : getCurrentSection s = some sec)
    (hqc : sec.content = .quiz qc)
    (hq : qc.questions[qc.currentQuestion]? = some q)
    (hsa : q.type = "short_answer") :
    (submitQuizAnswer s candidate).map Prod.snd
      = some (codeShortAnswerCorrect candidate q.answer) := by
  unfold submitQuizAnswer
  have hne : ¬ q.type = "multiple_choice" := by rw [hsa]; decide
  simp only [hsec, hqc, hq, gradeAnswer, if_neg hne, Option.map_some]
  rw [codeShortAnswerCorrect, Bool.or_comm]
  rfl

/-- Witness for the amended C5: the candidate "The mitochondria is the
powerhouse" against stored answer "mitochondria" is judged correct (the
answer is contained in the candidate). -/
theorem submit_shortAnswer_witness :
    (submitQuizAnswer ctrlSA "The mitochondria is the powerhouse").map Prod.snd
      = some true := by
  have h := submit_shortAnswer_grading ctrlSA
    ({ title := "Test Your Understanding"
       content := .quiz ({ questions := [qMito], currentQuestion := 0, score := 0 })
       next_button := { text := "Finish Section", enabled := false } })
    ({ questions := [qMito], currentQuestion := 0, score := 0 }) qMito
    "The mitochondria is the powerhouse" (by decide) rfl rfl rfl
  rw [h]
  decide

/-! ## Frame lemmas for the quiz operations -/

/-- A successful `submitQuizAnswer` only rewrites one section in place:
index, section count, callback bookkeeping and input data are untouched. -/
theorem submitQuizAnswer_frame (s : SequentialStudy) (a : String)
    (s' : SequentialStudy) (b : Bool)
    (h : submitQuizAnswer s a = some (s', b)) :
    s'.currentSectionIndex = s.currentSectionIndex
    ∧ s'.sections.length = s.sections.length
    ∧ s'.onComplete = s.onComplete
    ∧ s'.completions = s.completions
    ∧ s'.data = s.data := by
  unfold submitQuizAnswer at h
  split at h
  · simp at h
  · split at h
    · split at h
      · simp at h
      · simp only [Option.some.injEq, Prod.mk.injEq] at h
        obtain ⟨h1, -⟩ := h
        subst h1
        exact ⟨rfl, by simp, rfl, rfl, rfl⟩
    · simp at h

/-- A successful next-question action likewise only rewrites one section in
place. -/
theorem advanceQuizQuestion_frame (s : SequentialStudy)
    (s' : SequentialStudy) (sig : QuizSignal)
    (h : advanceQuizQuestion s = some (s', sig)) :
    s'.currentSectionIndex = s.currentSectionIndex
    ∧ s'.sections.length = s.sections.length
    ∧ s'.onComplete = s.onComplete
    ∧ s'.completions = s.completions
    ∧ s'.data = s.data := by
  unfold advanceQuizQuestion at h
  split at h
  · simp at h
  · split at h
    · split at h
      · simp only [Option.some.injEq, Prod.mk.injEq] at h
        obtain ⟨h1, -⟩ := h
        subst h1
        exact ⟨rfl, by simp, rfl, rfl, rfl⟩
      · simp only [Option.some.injEq, Prod.mk.injEq] at h
        obtain ⟨h1, -⟩ := h
        subst h1
        exact ⟨rfl, by simp, rfl, rfl, rfl⟩
    · simp at h

/-- `nextSection` never changes the section list. -/
theorem nextSection_sections (s : SequentialStudy) :
    (nextSection s).1.sections = s.sections := by
  unfold nextSection
  split <;> rfl

/-- `prevSection` never changes the section list. -/
theorem prevSection_sections (s : SequentialStudy) :
    (prevSection s).1.sections = s.sections := by
  unfold prevSection
  split <;> rfl

/-! ## C10 -/

/-- C10: on the last section, `nextSection` leaves the index and the whole
section list unchanged (it signals completion before any mutation), and
with no registered completion callback it is the identity on the state. -/
theorem nextSection_at_last_is_frame (s : SequentialStudy)
    (h : s.currentSectionIndex = s.sections.length - 1) :
    (nextSection s).1.currentSectionIndex = s.currentSectionIndex
    ∧ (nextSection s).1.sections = s.sections
    ∧ (nextSection s).2 = NavSignal.Completed
    ∧ (s.onComplete = false → (nextSection s).1 = s) := by
  rw [nextSection_of_last s (by omega)]
  refine ⟨rfl, rfl, rfl, fun hc => ?_⟩
  have hcom : (if s.onComplete then s.completions + 1 else s.completions)
      = s.completions := by
    simp [hc]
  rw [hcom]

/-- Witness for C10: `ctrlMC` sits on its last section (index 1 of 2) with
no callback registered, and advancing from it is the identity. -/
theorem nextSection_at_last_witness :
    (nextSection ctrlMC).1.sections = ctrlMC.sections
    ∧ (nextSection ctrlMC).1 = ctrlMC := by
  have h := nextSection_at_last_is_frame ctrlMC (by decide)
  exact ⟨h.2.1, h.2.2.2 (by decide)⟩

/-! ## C9 -/

/-- One operation preserves the index bound. -/
theorem runOp_index_lt (s : SequentialStudy) (op : Op)
    (h : s.currentSectionIndex < s.sections.length) :
    (runOp s op).currentSectionIndex < (runOp s op).sections.length := by
  cases op with
  | next =>
    show (nextSection s).1.currentSectionIndex < (nextSection s).1.sections.length
    rw [nextSection_sections]
    unfold nextSection
    by_cases hc : s.currentSectionIndex ≥ s.sections.length - 1
    · rw [if_pos hc]
      exact h
    · rw [if_neg hc]
      simp only
      omega
  | prev =>
    show (prevSection s).1.currentSectionIndex < (prevSection s).1.sections.length
    rw [prevSection_sections]
    unfold prevSection
    by_cases hc : s.currentSectionIndex ≤ 0
    · rw [if_pos hc]
      exact h
    · rw [if_neg hc]
      simp only
      omega
  | submit a =>
    cases hm : submitQuizAnswer s a with
    | none => simpa only [runOp, hm] using h
    | some p =>
      obtain ⟨s1, b1⟩ := p
      obtain ⟨h1, h2, -, -, -⟩ := submitQuizAnswer_frame s a s1 b1 hm
      simpa only [runOp, hm, h1, h2] using h
  | advanceQuiz =>
    cases hm : advanceQuizQuestion s with
    | none => simpa only [runOp, hm] using h
    | some p =>
      obtain ⟨s1, sg⟩ := p
      obtain ⟨h1, h2, -, -, -⟩ := advanceQuizQuestion_frame s s1 sg hm
      simpa only [runOp, hm, h1, h2] using h

/-- Any operation sequence preserves the index bound. -/
theorem run_index_lt (s : SequentialStudy) (ops : List Op)
    (h : s.currentSectionIndex < s.sections.length) :
    (run s ops).currentSectionIndex < (run s ops).sections.length := by
  induction ops generalizing s with
  | nil => exact h
  | cons op ops ih => exact ih (runOp s op) (runOp_index_lt s op h)

/-- C9: from construction, `0 ≤ currentSectionIndex < len(sections)` holds
(the section list is non-empty because Explanation always exists) and is
preserved by every sequence of operations; hence `getCurrentSection` is
total — it returns the entry of `sections` at `currentSectionIndex`, and
its `null` fallback branch is unreachable. -/
theorem getCurrentSection_total (d : StudyPlanData) (ops : List Op) :
    (run (SequentialStudy.mk' d) ops).currentSectionIndex
      < (run (SequentialStudy.mk' d) ops).sections.length
    ∧ getCurrentSection (run (SequentialStudy.mk' d) ops)
        = (run (SequentialStudy.mk' d) ops).sections[
            (run (SequentialStudy.mk' d) ops).currentSectionIndex]?
    ∧ (getCurrentSection (run (SequentialStudy.mk' d) ops)).isSome = true := by
  have h0 : (SequentialStudy.mk' d).currentSectionIndex
      < (SequentialStudy.mk' d).sections.length := by
    simpa [SequentialStudy.mk'] using buildSections_length_pos d
  have h := run_index_lt (SequentialStudy.mk' d) ops h0
  refine ⟨h, rfl, ?_⟩
  rw [getCurrentSection, List.getElem?_eq_getElem h]
  rfl

/-! ## C8 -/

/-- A quiz section positioned on its last question with `score = 2` of 3. -/
def quizSec23 : StudySection :=
  { title := "Test Your Understanding"
    content := .quiz ({ questions := [qParis, qMito, qHello]
                        currentQuestion := 2
                        score := 2 })
    next_button := { text := "Finish Section", enabled := false } }

/-- A controller sitting on `quizSec23`. -/
def ctrl23 : SequentialStudy :=
  { data := docMC
    currentSectionIndex := 0
    sections := [quizSec23]
    onComplete := false
    completions := 0 }

/-- C8: finalizing the quiz (next-question action on the last question)
reports `QuizFinished` with the section's score, its question count as
`total`, and `percentage = roundPercentage score total`; and that value is
exactly the half-up rounding of `100 * score / total` under exact
arithmetic: writing `r` for it, `r - 1/2 ≤ 100 * score / total < r + 1/2`,
i.e. `2*r*total ≤ 200*score + total < 2*r*total + 2*total`. -/
theorem advanceQuizQuestion_finalizes (s : SequentialStudy)
    (sec : StudySection) (qc : QuizContent)
    (hsec : getCurrentSection s = some sec)
    (hqc : sec.content = .quiz qc)
    (hlast : ¬ qc.currentQuestion < qc.questions.length - 1)
    (hpos : 0 < qc.questions.length) :
    (advanceQuizQuestion s).map Prod.snd
      = some (QuizSignal.QuizFinished qc.score qc.questions.length
          (roundPercentage qc.score qc.questions.length))
    ∧ 2 * roundPercentage qc.score qc.questions.length * qc.questions.length
        ≤ 200 * qc.score + qc.questions.length
    ∧ 200 * qc.score + qc.questions.length
        < 2 * roundPercentage qc.score qc.questions.length * qc.questions.length
          + 2 * qc.questions.length := by
  have ht2 : 0 < 2 * qc.questions.length := by omega
  have hd := Nat.div_add_mod (200 * qc.score + qc.questions.length)
    (2 * qc.questions.length)
  have hm := Nat.mod_lt (200 * qc.score + qc.questions.length) ht2
  refine ⟨?_, ?_, ?_⟩
  · unfold advanceQuizQuestion
    simp only [hsec, hqc, if_neg hlast, Option.map_some]
    rfl
  · calc 2 * roundPercentage qc.score qc.questions.length * qc.questions.length
        = 2 * qc.questions.length
            * ((200 * qc.score + qc.questions.length)
                / (2 * qc.questions.length)) := by
          unfold roundPercentage; ring
      _ ≤ 200 * qc.score + qc.questions.length := Nat.le.intro hd
  · calc 200 * qc.score + qc.questions.length
        = 2 * qc.questions.length
            * ((200 * qc.score + qc.questions.length) / (2 * qc.questions.length))
          + (200 * qc.score + qc.questions.length) % (2 * qc.questions.length) :=
          hd.symm
      _ < 2 * qc.questions.length
            * ((200 * qc.score + qc.questions.length) / (2 * qc.questions.length))
          + 2 * qc.questions.length := Nat.add_lt_add_left hm _
      _ = 2 * roundPercentage qc.score qc.questions.length * qc.questions.length
          + 2 * qc.questions.length := by
          unfold roundPercentage; ring

/-- Witness for C8: finalizing `ctrl23` (score 2 of 3 questions) reports
percentage 67, the exact-arithmetic rounding of 200/3. -/
theorem advanceQuizQuestion_finalizes_witness :
    (advanceQuizQuestion ctrl23).map Prod.snd
      = some (QuizSignal.QuizFinished 2 3 67) := by
  have h := advanceQuizQuestion_finalizes ctrl23 quizSec23
    ({ questions := [qParis, qMito, qHello], currentQuestion := 2, score := 2 })
    rfl rfl (by decide) (by decide)
  rw [h.1]
  rfl

/-! ## C7 -/

/-- An index holding a value under `getElem?` is in bounds. -/
theorem lt_length_of_getElem?_some {α : Type} {l : List α} {i : Nat} {a : α}
    (h : l[i]? = some a) : i < l.length := by
  by_contra hn
  rw [List.getElem?_eq_none (by omega)] at h
  cases h

/-- `submitQuizAnswer` never changes any section's `next_button.enabled`. -/
theorem submitQuizAnswer_navEnabled (s : SequentialStudy) (a : String)
    (s' : SequentialStudy) (b : Bool)
    (h : submitQuizAnswer s a = some (s', b)) (i : Nat) :
    navEnabledAt s' i = navEnabledAt s i := by
  unfold submitQuizAnswer at h
  split at h
  · simp at h
  · rename_i sec hsec
    split at h
    · rename_i qc hqc
      split at h
      · simp at h
      · simp only [Option.some.injEq, Prod.mk.injEq] at h
        obtain ⟨h1, -⟩ := h
        subst h1
        have hidx : s.currentSectionIndex < s.sections.length :=
          lt_length_of_getElem?_some (l := s.sections) hsec
        unfold navEnabledAt
        by_cases hij : s.currentSectionIndex = i
        · subst hij
          rw [show (getCurrentSection s = some sec) = (s.sections[s.currentSectionIndex]? = some sec) from rfl] at hsec
          simp only [List.getElem?_set_eq_of_lt _ hidx, hsec]
          rfl
        · simp only [List.getElem?_set_ne hij]
    · simp at h

/-- Effect of the next-question action on the `navEnabled` flags: either
every flag is unchanged, or — exactly when the action finalizes the quiz —
the flag of the current section is set to `true` and all others are
unchanged. -/
theorem advanceQuizQuestion_navEnabled (s : SequentialStudy)
    (s' : SequentialStudy) (sig : QuizSignal)
    (h : advanceQuizQuestion s = some (s', sig)) (i : Nat) :
    navEnabledAt s' i = navEnabledAt s i
    ∨ (i = s.currentSectionIndex ∧ finalizing s = true
        ∧ navEnabledAt s' i = some true) := by
  unfold advanceQuizQuestion at h
  split at h
  · simp at h
  · rename_i sec hsec
    split at h
    · rename_i qc hqc
      have hidx : s.currentSectionIndex < s.sections.length :=
        lt_length_of_getElem?_some (l := s.sections) hsec
      split at h
      · rename_i hlt
        left
        simp only [Option.some.injEq, Prod.mk.injEq] at h
        obtain ⟨h1, -⟩ := h
        subst h1
        unfold navEnabledAt
        by_cases hij : s.currentSectionIndex = i
        · subst hij
          rw [show (getCurrentSection s = some sec) = (s.sections[s.currentSectionIndex]? = some sec) from rfl] at hsec
          simp only [List.getElem?_set_eq_of_lt _ hidx, hsec]
          rfl
        · simp only [List.getElem?_set_ne hij]
      · rename_i hlt
        simp only [Option.some.injEq, Prod.mk.injEq] at h
        obtain ⟨h1, -⟩ := h
        subst h1
        by_cases hij : i = s.currentSectionIndex
        · right
          subst hij
          refine ⟨rfl, ?_, ?_⟩
          · simp only [finalizing, hsec, hqc]
            simp [hlt]
          · unfold navEnabledAt
            simp only [List.getElem?_set_eq_of_lt _ hidx, Option.map_some]
            rfl
        · left
          unfold navEnabledAt
          simp only [List.getElem?_set_ne (fun he => hij he.symm)]
    · simp at h

/-- `navEnabledAt` only depends on the section list. -/
theorem navEnabledAt_congr (s s' : SequentialStudy) (i : Nat)
    (h : s'.sections = s.sections) : navEnabledAt s' i = navEnabledAt s i := by
  unfold navEnabledAt
  rw [h]

/-- C7: the quiz section's `navEnabled` flag latches.  (a) Every quiz
section produced by construction has `next_button.enabled = false`.
(b) Once a section's flag is `true`, no operation ever resets it.  (c) A
flag can newly become `true` only through a next-question action taken on
the quiz's last question (the finalization that `showQuizResults`
performs) — so the flag is false from construction until the quiz is
finished, and permanently true afterwards. -/
theorem quizNavEnabled_latches :
    (∀ (d : StudyPlanData) (i : Nat) (sec : StudySection),
       (SequentialStudy.mk' d).sections[i]? = some sec →
       sec.kind = SectionKind.quiz →
       sec.next_button.enabled = false)
    ∧ (∀ (s : SequentialStudy) (op : Op) (i : Nat),
       navEnabledAt s i = some true → navEnabledAt (runOp s op) i = some true)
    ∧ (∀ (s : SequentialStudy) (op : Op) (i : Nat),
       navEnabledAt (runOp s op) i = some true →
       navEnabledAt s i = some true
       ∨ (op = Op.advanceQuiz ∧ i = s.currentSectionIndex
           ∧ finalizing s = true)) := by
  have hstep : ∀ (s : SequentialStudy) (op : Op) (i : Nat),
      navEnabledAt (runOp s op) i = navEnabledAt s i
      ∨ (op = Op.advanceQuiz ∧ i = s.currentSectionIndex
          ∧ finalizing s = true ∧ navEnabledAt (runOp s op) i = some true) := by
    intro s op i
    cases op with
    | next => exact Or.inl (navEnabledAt_congr s _ i (nextSection_sections s))
    | prev => exact Or.inl (navEnabledAt_congr s _ i (prevSection_sections s))
    | submit a =>
      cases hm : submitQuizAnswer s a with
      | none => left; simp only [runOp, hm]
      | some p =>
        left
        have := submitQuizAnswer_navEnabled s a p.1 p.2 (by rw [hm]) i
        simpa only [runOp, hm] using this
    | advanceQuiz =>
      cases hm : advanceQuizQuestion s with
      | none => left; simp only [runOp, hm]
      | some p =>
        have := advanceQuizQuestion_navEnabled s p.1 p.2 (by rw [hm]) i
        rcases this with heq | ⟨hi, hf, hv⟩
        · left; simpa only [runOp, hm] using heq
        · right
          exact ⟨rfl, hi, hf, by simpa only [runOp, hm] using hv⟩
  refine ⟨?_, ?_, ?_⟩
  · intro d i sec hget hkind
    have hmem : sec ∈ buildSections d := List.getElem?_mem hget
    unfold buildSections at hmem
    simp only [List.mem_cons, List.mem_append] at hmem
    rcases hmem with h1 | h2 | h3
    · subst h1
      simp [StudySection.kind] at hkind
    · exfalso
      rcases hwe : d.worked_examples with - | ex
      · rw [hwe] at h2
        simp at h2
      · rw [hwe] at h2
        by_cases hlen : ex.length > 0
        · simp [hlen] at h2
          subst h2
          simp [StudySection.kind] at hkind
        · simp [hlen] at h2
    · rcases har : d.active_recall with - | qs
      · rw [har] at h3
        simp at h3
      · rw [har] at h3
        by_cases hlen : qs.length > 0
        · simp [hlen] at h3
          subst h3
          rfl
        · simp [hlen] at h3
  · intro s op i h
    rcases hstep s op i with heq | ⟨-, -, -, hv⟩
    · rw [heq]; exact h
    · exact hv
  · intro s op i h
    rcases hstep s op i with heq | ⟨hop, hi, hf, -⟩
    · left; rw [← heq]; exact h
    · right; exact ⟨hop, hi, hf⟩

/-- Witness for C7: on `docMC` the quiz section (index 1) starts with
`navEnabled = false`; after finalizing (a next-question action on
`ctrlMC`, whose single question is the last), the flag is `true` and a
further navigation keeps it `true`. -/
theorem quizNavEnabled_witness :
    navEnabledAt (SequentialStudy.mk' docMC) 1 = some false
    ∧ navEnabledAt (runOp (runOp ctrlMC Op.advanceQuiz) Op.prev) 1 = some true := by
  have h2 := quizNavEnabled_latches.2.1 (runOp ctrlMC Op.advanceQuiz) Op.prev 1
    (by decide)
  exact ⟨by decide, h2⟩

/-! ## C6 -/

/-- Score effect of one `submitQuizAnswer`: the current quiz section's
score grows by exactly 1 on a correct submission and by 0 on an incorrect
one; every other index keeps its score. -/
theorem submitQuizAnswer_score (s : SequentialStudy) (a : String)
    (s' : SequentialStudy) (b : Bool)
    (h : submitQuizAnswer s a = some (s', b)) :
    scoreAt s' s.currentSectionIndex
      = scoreAt s s.currentSectionIndex + (if b then 1 else 0)
    ∧ ∀ j, j ≠ s.currentSectionIndex → scoreAt s' j = scoreAt s j := by
  unfold submitQuizAnswer at h
  split at h
  · simp at h
  · rename_i sec hsec
    split at h
    · rename_i qc hqc
      split at h
      · simp at h
      · rename_i q hq
        simp only [Option.some.injEq, Prod.mk.injEq] at h
        obtain ⟨h1, h2⟩ := h
        subst h1
        subst h2
        have hidx : s.currentSectionIndex < s.sections.length :=
          lt_length_of_getElem?_some (l := s.sections) hsec
        constructor
        · unfold scoreAt
          rw [show (getCurrentSection s = some sec) = (s.sections[s.currentSectionIndex]? = some sec) from rfl] at hsec
          simp only [List.getElem?_set_eq_of_lt _ hidx, hsec, hqc]
          cases hg : gradeAnswer q a <;> simp [hg]
        · intro j hj
          unfold scoreAt
          simp only [List.getElem?_set_ne (fun he => hj he.symm)]
    · simp at h

/-- The next-question action never changes any score. -/
theorem advanceQuizQuestion_score (s : SequentialStudy)
    (s' : SequentialStudy) (sig : QuizSignal)
    (h : advanceQuizQuestion s = some (s', sig)) (j : Nat) :
    scoreAt s' j = scoreAt s j := by
  unfold advanceQuizQuestion at h
  split at h
  · simp at h
  · rename_i sec hsec
    split at h
    · rename_i qc hqc
      have hidx : s.currentSectionIndex < s.sections.length :=
        lt_length_of_getElem?_some (l := s.sections) hsec
      split at h
      · simp only [Option.some.injEq, Prod.mk.injEq] at h
        obtain ⟨h1, -⟩ := h
        subst h1
        unfold scoreAt
        by_cases hij : s.currentSectionIndex = j
        · subst hij
          rw [show (getCurrentSection s = some sec) = (s.sections[s.currentSectionIndex]? = some sec) from rfl] at hsec
          simp only [List.getElem?_set_eq_of_lt _ hidx, hsec, hqc]
        · simp only [List.getElem?_set_ne hij]
      · simp only [Option.some.injEq, Prod.mk.injEq] at h
        obtain ⟨h1, -⟩ := h
        subst h1
        unfold scoreAt
        by_cases hij : s.currentSectionIndex = j
        · subst hij
          rw [show (getCurrentSection s = some sec) = (s.sections[s.currentSectionIndex]? = some sec) from rfl] at hsec
          simp only [List.getElem?_set_eq_of_lt _ hidx, hsec]
        · simp only [List.getElem?_set_ne hij]
    · simp at h

/-- `scoreAt` only depends on the section list. -/
theorem scoreAt_congr (s s' : SequentialStudy) (i : Nat)
    (h : s'.sections = s.sections) : scoreAt s' i = scoreAt s i := by
  unfold scoreAt
  rw [h]

/-- One operation never decreases a score and raises it by at most 1, and
only when the operation is a submission. -/
theorem scoreAt_runOp (s : SequentialStudy) (op : Op) (i : Nat) :
    scoreAt s i ≤ scoreAt (runOp s op) i
    ∧ scoreAt (runOp s op) i ≤ scoreAt s i + (if Op.isSubmit op then 1 else 0) := by
  cases op with
  | next =>
    have heq := scoreAt_congr s (runOp s Op.next) i (nextSection_sections s)
    rw [heq]
    exact ⟨Nat.le_refl _, Nat.le_add_right _ _⟩
  | prev =>
    have heq := scoreAt_congr s (runOp s Op.prev) i (prevSection_sections s)
    rw [heq]
    exact ⟨Nat.le_refl _, Nat.le_add_right _ _⟩
  | submit a =>
    cases hm : submitQuizAnswer s a with
    | none =>
      simp only [runOp, hm]
      exact ⟨Nat.le_refl _, Nat.le_add_right _ _⟩
    | some p =>
      obtain ⟨s1, b1⟩ := p
      obtain ⟨hEq, hOther⟩ := submitQuizAnswer_score s a s1 b1 hm
      have hval : scoreAt s1 i = scoreAt s i
          ∨ scoreAt s1 i = scoreAt s i + 1 := by
        by_cases hij : i = s.currentSectionIndex
        · subst hij
          cases b1 <;> simp [hEq]
        · exact Or.inl (hOther i hij)
      simp only [runOp, hm]
      have hone : (if Op.isSubmit (Op.submit a) then 1 else 0) = 1 := rfl
      rw [hone]
      rcases hval with hv | hv <;> rw [hv] <;> omega
  | advanceQuiz =>
    cases hm : advanceQuizQuestion s with
    | none =>
      simp only [runOp, hm]
      exact ⟨Nat.le_refl _, Nat.le_add_right _ _⟩
    | some p =>
      obtain ⟨s1, sg⟩ := p
      have heq := advanceQuizQuestion_score s s1 sg hm i
      simp only [runOp, hm]
      rw [heq]
      exact ⟨Nat.le_refl _, Nat.le_add_right _ _⟩

/-- Over a whole operation sequence the score is monotone and bounded by
the number of submissions performed. -/
theorem scoreAt_run (s : SequentialStudy) (ops : List Op) (i : Nat) :
    scoreAt s i ≤ scoreAt (run s ops) i
    ∧ scoreAt (run s ops) i ≤ scoreAt s i + (ops.filter Op.isSubmit).length := by
  induction ops generalizing s with
  | nil => simp [run]
  | cons op ops ih =>
    have hstep := scoreAt_runOp s op i
    have htail := ih (runOp s op)
    have hrun : run s (op :: ops) = run (runOp s op) ops := rfl
    rw [hrun]
    have hB := hstep.2
    constructor
    · exact Nat.le_trans hstep.1 htail.1
    · by_cases hsub : Op.isSubmit op
      · rw [if_pos hsub] at hB
        have hlen : ((op :: ops).filter Op.isSubmit).length
            = (ops.filter Op.isSubmit).length + 1 := by
          simp [List.filter_cons, hsub]
        rw [hlen]
        have := htail.2
        omega
      · rw [if_neg hsub] at hB
        have hlen : ((op :: ops).filter Op.isSubmit).length
            = (ops.filter Op.isSubmit).length := by
          simp [List.filter_cons, hsub]
        rw [hlen]
        have := htail.2
        omega

/-- Counterexample state for C6 as stated: the single-question quiz of
`docMC` submitted correctly twice. -/
def cexState : SequentialStudy :=
  run (SequentialStudy.mk' docMC) [Op.next, Op.submit "Paris", Op.submit "Paris"]

/-- Counterexample to C6 as stated: after two correct submissions of the
same (single) question, the quiz section's score is 2 although the section
holds only 1 question — the bound `score ≤ len(questions)` and the
"incremented at most once per question" clause fail, because the
controller does not deduplicate submissions. -/
theorem score_exceeds_question_count :
    ((cexState.sections[1]?).bind sectionQuizQuestions).map List.length = some 1
    ∧ scoreAt cexState 1 = 2 := by
  constructor <;> decide

/-- C6 (amended): the score is a natural number (hence never negative)
that never decreases under any operation sequence and is bounded by its
starting value plus the number of submissions performed; each
`submitQuizAnswer` call adds exactly 1 to the current quiz section's score
when the answer is judged correct and 0 otherwise, and leaves every other
section's score unchanged.  (The bound `score ≤ len(questions)` of the
original claim holds only under the UI's single-submission discipline,
which the controller itself does not enforce.) -/
theorem score_monotone_bounded_increments (s : SequentialStudy) :
    (∀ (i : Nat) (ops : List Op),
       scoreAt s i ≤ scoreAt (run s ops) i
       ∧ scoreAt (run s ops) i ≤ scoreAt s i + (ops.filter Op.isSubmit).length)
    ∧ (∀ (a : String) (s' : SequentialStudy) (b : Bool),
       submitQuizAnswer s a = some (s', b) →
       scoreAt s' s.currentSectionIndex
         = scoreAt s s.currentSectionIndex + (if b then 1 else 0)
       ∧ ∀ j, j ≠ s.currentSectionIndex → scoreAt s' j = scoreAt s j) :=
  ⟨fun i ops => scoreAt_run s ops i,
   fun a s' b h => submitQuizAnswer_score s a s' b h⟩

/-- The state after one correct submission on `ctrlMC`. -/
def ctrlMCsub : SequentialStudy :=
  runOp ctrlMC (Op.submit "Paris")

/-- Witness for the amended C6 on `ctrlMC`: the quiz score is monotone
under a submission, and a correct submission adds exactly one. -/
theorem score_monotone_witness :
    scoreAt ctrlMC 1 ≤ scoreAt (run ctrlMC [Op.submit "Paris"]) 1
    ∧ scoreAt ctrlMCsub ctrlMC.currentSectionIndex
        = scoreAt ctrlMC ctrlMC.currentSectionIndex + 1 := by
  have h := score_monotone_bounded_increments ctrlMC
  refine ⟨(h.1 1 [Op.submit "Paris"]).1, ?_⟩
  have h2 := (h.2 "Paris" ctrlMCsub true (by decide)).1
  simpa using h2
